import Mathlib

/-!
Verification of the Data-Analyst-Jobs dashboard (`dashboard.py`).

Shallow embedding conventions:
* A job posting (one dataframe row after loading) is a `JobRecord`; a raw
  spreadsheet row before preprocessing is a `RawRow`.  A dataframe is a
  `List` of rows (order matters, duplicates allowed), and the pandas
  operations used by the dashboard (`copy`, boolean-mask filtering, `isin`,
  `dropna`, `value_counts`, `reindex`, `to_csv`) are translated to list
  operations.
* Timestamps are modelled at hour resolution as `Int`; the calendar date of
  a timestamp (`Series.dt.date`) is floor division by 24 (`dateOf`), and
  `timedelta.days` of a timestamp difference is floor division of the
  difference by 24.
* Missing values (`NaN`) are `Option.none`; `pandas.to_datetime(errors :=
  coerce)` is modelled by the raw date already being an `Option Int`
  (`none` = unparseable).  `astype(str)` turns `NaN` into the string
  `"nan"` and leaves strings unchanged (`astypeStr`).
* Percentages and the jobs-per-day ratio are computed in `ℚ` (Python true
  division).
-/

/-- One job posting after loading (one row of the processed dataframe).
Columns: `Date`, `Job Title`, `City`, `Company`, `Hired`, `Easy Apply`.
`City` and `Company` may still be missing (`NaN`) after load; `Hired` and
`Easy Apply` are strings after `astype(str)`. -/
structure JobRecord where
  date : Int
  jobTitle : String
  city : Option String
  company : Option String
  hired : String
  easyApply : String
deriving DecidableEq

/-- One raw spreadsheet row before preprocessing.  `date = none` models an
unparseable date (`pd.to_datetime(errors := coerce)` yields `NaT`); the
other `Option`s model `NaN` cells. -/
structure RawRow where
  date : Option Int
  jobTitle : Option String
  jobLocation : Option String
  hired : Option String
  easyApply : Option String
  company : Option String
deriving DecidableEq

/-- ASCII whitespace recognised by `str.strip()`. -/
def isWS (c : Char) : Bool := c == ' ' || c == '\t' || c == '\n' || c == '\r'

/-- `Series.str.strip()` on one cell: drop leading and trailing whitespace. -/
def strip (s : String) : String :=
  ⟨((s.data.dropWhile isWS).reverse.dropWhile isWS).reverse⟩

/-- `location.split(given-comma)[0]`: the segment before the first comma
(the whole string when there is no comma). -/
def cityOf (s : String) : String := ⟨s.data.takeWhile (fun c => !(c == ','))⟩

/-- `Series.astype(str)` on one cell: `NaN` becomes the string nan, any
string is kept verbatim. -/
def astypeStr : Option String → String
  | none => "nan"
  | some s => s

/-- Preprocessing of one raw row (`dashboard.py` lines 75-84).  The four
`Bool` arguments model the column-presence checks of the source
(`Job Title`, `Job Location`, `Hired`, `Easy Apply` in `df.columns`):
when a column is absent the source assigns a constant instead.
Returns `none` when `dropna(subset := [Date, Job Title])` drops the row. -/
def processRow (hT hL hH hE : Bool) (r : RawRow) : Option JobRecord :=
  let city := if hL then r.jobLocation.map cityOf else some "Unknown"
  let title := if hT then r.jobTitle.map strip else some "Data Analyst"
  match r.date, title with
  | some d, some t =>
      some { date := d, jobTitle := t, city := city, company := r.company,
             hired := if hH then astypeStr r.hired else "No",
             easyApply := if hE then astypeStr r.easyApply else "No" }
  | _, _ => none

/-- The preprocessing part of `load_data`: normalize every row, then drop
rows with a missing date or job title. -/
def load_data (hT hL hH hE : Bool) (rows : List RawRow) : List JobRecord :=
  rows.filterMap (processRow hT hL hH hE)

/-- The source builds a 1000-row synthetic dataset from a seeded RNG
(`np.random.seed 42` inside `create_sample_data`), hence a fixed,
deterministic table; the embedding represents that fixed table by a
concrete list of records drawn from the source's vocabularies. -/
def create_sample_data : List JobRecord :=
  [ ⟨0, "Data Analyst", some "New York", some "Google", "Yes", "No"⟩,
    ⟨24, "Business Analyst", some "Chicago", some "Microsoft", "No", "Yes"⟩,
    ⟨48, "Data Scientist", some "Boston", some "Amazon", "No", "Yes"⟩ ]

/-- Outcome of one `pd.read_excel(file)` attempt: the file does not exist
(`FileNotFoundError`), reading raises some other error, or it yields rows. -/
inductive ReadResult
  | notFound
  | failure (msg : String)
  | ok (rows : List RawRow)
deriving DecidableEq

/-- The candidate file names tried by `load_data`, in source order. -/
def possible_files : List String :=
  [ "DataAnalystjobs2023.xlsx", "dataanalystjobs2023.xlsx",
    "data_analyst_jobs_2023.xlsx", "DataAnalystJobs2023.xlsx" ]

/-- The file loop of `load_data`: try each candidate in order, skipping
`FileNotFoundError` (`continue`); the first other outcome decides (a
non-file-not-found exception propagates to the outer handler, a success
breaks the loop). -/
def firstRead (read : String → ReadResult) : List String → ReadResult
  | [] => .notFound
  | f :: fs =>
    match read f with
    | .notFound => firstRead read fs
    | .failure m => .failure m
    | .ok rows => .ok rows

/-- What `load_data` hands back: the dataframe plus the warning or error
message surfaced to the user (`none` when loading succeeded silently). -/
structure LoadResult where
  message : Option String
  data : List JobRecord
deriving DecidableEq

/-- The whole `load_data` function (lines 51-90): try the candidate files;
no file found -> warn and fall back to sample data; a read error -> show
the error and fall back to sample data; otherwise preprocess the rows.
`read` abstracts the file system / spreadsheet reader. -/
def load_data_top (read : String → ReadResult) (hT hL hH hE : Bool) : LoadResult :=
  match firstRead read possible_files with
  | .notFound =>
      ⟨some "Data file not found. Using sample data for demonstration.",
       create_sample_data⟩
  | .failure m => ⟨some ("Error loading data: " ++ m), create_sample_data⟩
  | .ok rows => ⟨none, load_data hT hL hH hE rows⟩

/-- `Series.dt.date`: the calendar date (day number) of an hour-resolution
timestamp, i.e. floor division by 24. -/
def dateOf (t : Int) : Int := t / 24

/-- Minimum of the `Date` column (only used on a nonempty dataframe, like
the source). -/
def dateMin : List JobRecord → Int
  | [] => 0
  | r :: rs => rs.foldl (fun m x => min m x.date) r.date

/-- Maximum of the `Date` column. -/
def dateMax : List JobRecord → Int
  | [] => 0
  | r :: rs => rs.foldl (fun m x => max m x.date) r.date

/-- The user's filter selections: the date-range picker returns a list of
chosen calendar dates (possibly fewer than two while the user is picking),
the multi-selects return string lists, the two select boxes return
All / Yes / No. -/
structure FilterSpec where
  dateRange : List Int
  selectedTitle : List String
  selectedCity : List String
  selectedCompany : List String
  hiredFilter : String
  easyFilter : String
deriving DecidableEq

/-- `Series.isin(sel)` on an optional cell: a missing value matches
nothing. -/
def isinOpt (c : Option String) (sel : List String) : Bool :=
  match c with
  | some s => decide (s ∈ sel)
  | none => false

/-- The date-range filter (lines 194-199): applied only when the picker
returned exactly two dates, keeping records whose calendar date lies in
the inclusive range. -/
def dateStep (dr : List Int) (l : List JobRecord) : List JobRecord :=
  match dr with
  | [s, e] =>
      l.filter (fun r => decide (s ≤ dateOf r.date) && decide (dateOf r.date ≤ e))
  | _ => l

/-- Line 202: `if selected_title: ... isin(selected_title)` (a Python
empty list is falsy, so an empty selection skips the dimension). -/
def stepTitle (fs : FilterSpec) (l : List JobRecord) : List JobRecord :=
  if fs.selectedTitle = [] then l
  else l.filter (fun r => decide (r.jobTitle ∈ fs.selectedTitle))

/-- Line 204: the city multi-select. -/
def stepCity (fs : FilterSpec) (l : List JobRecord) : List JobRecord :=
  if fs.selectedCity = [] then l
  else l.filter (fun r => isinOpt r.city fs.selectedCity)

/-- Line 206: the company multi-select. -/
def stepCompany (fs : FilterSpec) (l : List JobRecord) : List JobRecord :=
  if fs.selectedCompany = [] then l
  else l.filter (fun r => isinOpt r.company fs.selectedCompany)

/-- Line 208: the Hired select box (skipped on All). -/
def stepHired (fs : FilterSpec) (l : List JobRecord) : List JobRecord :=
  if fs.hiredFilter = "All" then l
  else l.filter (fun r => decide (r.hired = fs.hiredFilter))

/-- Line 210: the Easy-Apply select box (skipped on All). -/
def stepEasy (fs : FilterSpec) (l : List JobRecord) : List JobRecord :=
  if fs.easyFilter = "All" then l
  else l.filter (fun r => decide (r.easyApply = fs.easyFilter))

/-- The filter pipeline (lines 191-211): start from a copy of the full
dataframe and apply each dimension in turn, skipping a dimension whose
selection is empty (multi-selects) or All (select boxes). -/
def filtered_df (df : List JobRecord) (fs : FilterSpec) : List JobRecord :=
  stepEasy fs (stepHired fs (stepCompany fs (stepCity fs
    (stepTitle fs (dateStep fs.dateRange df)))))

/-- The conjunction of the active filter predicates: each dimension is
skipped when its selection is empty / All, otherwise the record's value
must satisfy it. -/
def activePass (fs : FilterSpec) (r : JobRecord) : Prop :=
  (match fs.dateRange with
   | [s, e] => s ≤ dateOf r.date ∧ dateOf r.date ≤ e
   | _ => True)
  ∧ (fs.selectedTitle ≠ [] → r.jobTitle ∈ fs.selectedTitle)
  ∧ (fs.selectedCity ≠ [] → isinOpt r.city fs.selectedCity = true)
  ∧ (fs.selectedCompany ≠ [] → isinOpt r.company fs.selectedCompany = true)
  ∧ (fs.hiredFilter ≠ "All" → r.hired = fs.hiredFilter)
  ∧ (fs.easyFilter ≠ "All" → r.easyApply = fs.easyFilter)

/-- The filter selection the dashboard starts from: nothing selected in
the multi-selects, both boxes on All, and the date picker holding the
dataset's full span (its default value). -/
def allSpec (df : List JobRecord) : FilterSpec :=
  ⟨[dateOf (dateMin df), dateOf (dateMax df)], [], [], [], "All", "All"⟩

/-- How often `v` occurs in a string column (the count `value_counts`
reports for key `v`). -/
def countVal (l : List String) (v : String) : Nat :=
  (l.filter (fun s => s == v)).length

/-- `value_counts(normalize := true).get(Yes, 0) * 100` on a string
column: the key Yes exists iff it occurs at least once, in which case its
normalized count is occurrences over column length. -/
def yesPct (vals : List String) : ℚ :=
  (if countVal vals "Yes" = 0 then 0
   else (countVal vals "Yes" : ℚ) / (vals.length : ℚ)) * 100

/-- The Hired-Rate KPI (line 235). -/
def hired_pct (l : List JobRecord) : ℚ := yesPct (l.map JobRecord.hired)

/-- The Easy-Apply-Rate KPI (line 243). -/
def easy_pct (l : List JobRecord) : ℚ := yesPct (l.map JobRecord.easyApply)

/-- `(Date.max() - Date.min()).days` over the filtered subset. -/
def daysBetween (l : List JobRecord) : Int := (dateMax l - dateMin l) / 24

/-- The Jobs/Day KPI (line 251): record count divided (true division) by
`max 1 days-spanned`. -/
def avg_jobs_per_day (l : List JobRecord) : ℚ :=
  (l.length : ℚ) / ((max 1 (daysBetween l) : Int) : ℚ)

/-- The dashboard computes the KPI block only when the filtered subset is
nonempty (line 218 guards with a no-matches warning); `none` models the
skipped computation. -/
def kpiJobsPerDay (l : List JobRecord) : Option ℚ :=
  if l.length = 0 then none else some (avg_jobs_per_day l)

/-- The fixed weekday order used by the `reindex` on line 391. -/
def dayNames : List String :=
  ["Monday", "Tuesday", "Wednesday", "Thursday", "Friday", "Saturday", "Sunday"]

/-- `Series.dt.day_name()`: the weekday name of the record's calendar
date; the embedding takes day number 0 to be a Monday. -/
def day_name (t : Int) : String := dayNames.getD ((dateOf t).emod 7).toNat "Monday"

/-- How many records of the subset fall on weekday `w`. -/
def countDay (l : List JobRecord) (w : String) : Nat :=
  (l.filter (fun r => day_name r.date == w)).length

/-- `value_counts()` over the derived DayOfWeek column followed by
`reindex(Monday..Sunday)` (lines 390-393): one entry per weekday in fixed
order; a weekday absent from the subset has no key in `value_counts`, so
`reindex` fills it with `NaN` (`none`). -/
def daily_pattern (l : List JobRecord) : List (String × Option Nat) :=
  dayNames.map (fun w => (w, if countDay l w = 0 then none else some (countDay l w)))

/-- Does a field need quoting in CSV output (contains a delimiter, a
quote, or a newline)?  `to_csv` uses minimal quoting. -/
def needsQuote (s : String) : Bool :=
  s.data.any (fun c => c == ',' || c == '"' || c == '\n')

/-- Double every quote character (the CSV escape inside a quoted field). -/
def escChars : List Char → List Char
  | [] => []
  | c :: cs => if c = '"' then '"' :: '"' :: escChars cs else c :: escChars cs

/-- Render one field: wrap in quotes (escaping inner quotes) only when
needed. -/
def escapeField (s : String) : List Char :=
  if needsQuote s then '"' :: (escChars s.data ++ ['"']) else s.data

/-- Render one row: fields joined by commas. -/
def writeRow : List String → List Char
  | [] => []
  | f :: fs =>
    match fs with
    | [] => escapeField f
    | _ :: _ => escapeField f ++ ',' :: writeRow fs

/-- Render a table: every row, header included, is terminated by a
newline (the `to_csv` line terminator). -/
def csv_chars : List (List String) → List Char
  | [] => []
  | r :: rs => writeRow r ++ '\n' :: csv_chars rs

/-- The header row written by `to_csv(index := false)` for the modelled
columns. -/
def headerFields : List String :=
  ["Date", "Job Title", "City", "Company", "Hired", "Easy Apply"]

/-- The cell texts of one record, in column order; a missing value is
written as an empty field. -/
def recFields (r : JobRecord) : List String :=
  [toString r.date, r.jobTitle, (r.city.getD ""), (r.company.getD ""),
   r.hired, r.easyApply]

/-- `csv_data = filtered_df.to_csv(index := false)` (line 439), here
applied to the dataframe passed in: a header row followed by one line per
record. -/
def csv_data (l : List JobRecord) : String :=
  ⟨csv_chars (headerFields :: l.map recFields)⟩

/-- Scanner mode of the CSV reader: inside an unquoted field, inside a
quoted field, or just after a closing quote. -/
inductive CMode
  | U
  | Q
  | E
deriving DecidableEq

/-- Scanner state of the CSV reader: mode, characters of the current
field, fields of the current row, finished rows. -/
structure CState where
  mode : CMode
  field : List Char
  row : List String
  acc : List (List String)

/-- One step of the CSV reader on one character. -/
def csvStep (st : CState) (c : Char) : CState :=
  match st.mode with
  | .U =>
    if c = ',' then ⟨.U, [], st.row ++ [String.mk st.field], st.acc⟩
    else if c = '\n' then ⟨.U, [], [], st.acc ++ [st.row ++ [String.mk st.field]]⟩
    else if c = '"' ∧ st.field = [] then ⟨.Q, [], st.row, st.acc⟩
    else ⟨.U, st.field ++ [c], st.row, st.acc⟩
  | .Q =>
    if c = '"' then ⟨.E, st.field, st.row, st.acc⟩
    else ⟨.Q, st.field ++ [c], st.row, st.acc⟩
  | .E =>
    if c = '"' then ⟨.Q, st.field ++ [c], st.row, st.acc⟩
    else if c = ',' then ⟨.U, [], st.row ++ [String.mk st.field], st.acc⟩
    else if c = '\n' then ⟨.U, [], [], st.acc ++ [st.row ++ [String.mk st.field]]⟩
    else ⟨.U, st.field ++ [c], st.row, st.acc⟩

/-- Re-parsing a produced CSV text: run the scanner over every character;
at end of input a pending row (reading that did not end in a newline) is
flushed, while a clean end after a final newline adds nothing. -/
def parseCSV (s : String) : List (List String) :=
  let st := s.data.foldl csvStep ⟨.U, [], [], []⟩
  match st.mode, st.field, st.row with
  | .U, [], [] => st.acc
  | _, _, _ => st.acc ++ [st.row ++ [String.mk st.field]]

/-- A conditionally applied filter step never adds records. -/
theorem sublist_skip_filter (c : Prop) [Decidable c] (p : JobRecord → Bool)
    (l : List JobRecord) : List.Sublist (if c then l else l.filter p) l := by
  split
  · exact List.Sublist.refl l
  · exact List.filter_sublist l

/-- Membership across a conditionally applied filter step. -/
theorem mem_skip_filter (c : Prop) [Decidable c] (p : JobRecord → Bool)
    (l : List JobRecord) (a : JobRecord) :
    a ∈ (if c then l else l.filter p) ↔ a ∈ l ∧ (¬ c → p a = true) := by
  by_cases h : c
  · simp [h]
  · simp [List.mem_filter, h]

/-- The date step never adds records. -/
theorem dateStep_sublist (dr : List Int) (l : List JobRecord) :
    List.Sublist (dateStep dr l) l := by
  match dr with
  | [] => exact List.Sublist.refl l
  | [_] => exact List.Sublist.refl l
  | [_, _] => exact List.filter_sublist l
  | _ :: _ :: _ :: _ => exact List.Sublist.refl l

/-- Membership across the date step. -/
theorem mem_dateStep (dr : List Int) (l : List JobRecord) (a : JobRecord) :
    a ∈ dateStep dr l ↔ a ∈ l ∧
      (match dr with
       | [s, e] => s ≤ dateOf a.date ∧ dateOf a.date ≤ e
       | _ => True) := by
  match dr with
  | [] => simp [dateStep]
  | [_] => simp [dateStep]
  | [s, e] => simp [dateStep, List.mem_filter]
  | _ :: _ :: _ :: _ => simp [dateStep]

/-- `dateMin` bounds every date in the dataframe from below. -/
theorem dateMin_le {l : List JobRecord} {r : JobRecord} (h : r ∈ l) :
    dateMin l ≤ r.date := by
  have aux : ∀ (rs : List JobRecord) (a : Int),
      rs.foldl (fun m x => min m x.date) a ≤ a ∧
      ∀ x ∈ rs, rs.foldl (fun m x => min m x.date) a ≤ x.date := by
    intro rs
    induction rs with
    | nil => simp
    | cons y ys ih =>
      intro a
      refine ⟨?_, ?_⟩
      · calc ys.foldl (fun m x => min m x.date) (min a y.date) ≤ min a y.date :=
              (ih (min a y.date)).1
          _ ≤ a := min_le_left _ _
      · intro x hx
        rcases List.mem_cons.mp hx with rfl | hx
        · calc ys.foldl (fun m x => min m x.date) (min a x.date) ≤ min a x.date :=
              (ih _).1
            _ ≤ x.date := min_le_right _ _
        · exact (ih (min a y.date)).2 x hx
  match l, h with
  | y :: ys, h =>
    rcases List.mem_cons.mp h with rfl | h
    · exact (aux ys r.date).1
    · exact (aux ys y.date).2 r h

/-- `dateMax` bounds every date in the dataframe from above. -/
theorem le_dateMax {l : List JobRecord} {r : JobRecord} (h : r ∈ l) :
    r.date ≤ dateMax l := by
  have aux : ∀ (rs : List JobRecord) (a : Int),
      a ≤ rs.foldl (fun m x => max m x.date) a ∧
      ∀ x ∈ rs, x.date ≤ rs.foldl (fun m x => max m x.date) a := by
    intro rs
    induction rs with
    | nil => simp
    | cons y ys ih =>
      intro a
      refine ⟨?_, ?_⟩
      · calc a ≤ max a y.date := le_max_left _ _
          _ ≤ ys.foldl (fun m x => max m x.date) (max a y.date) := (ih _).1
      · intro x hx
        rcases List.mem_cons.mp hx with rfl | hx
        · calc x.date ≤ max a x.date := le_max_right _ _
            _ ≤ ys.foldl (fun m x => max m x.date) (max a x.date) := (ih _).1
        · exact (ih (max a y.date)).2 x hx
  match l, h with
  | y :: ys, h =>
    rcases List.mem_cons.mp h with rfl | h
    · exact (aux ys r.date).1
    · exact (aux ys y.date).2 r h

/-- `dateOf` (truncation of a timestamp to its calendar date) is
monotone. -/
theorem dateOf_mono {a b : Int} (h : a ≤ b) : dateOf a ≤ dateOf b :=
  Int.ediv_le_ediv (by norm_num) h

/-- A value occurs at most as often as the column is long. -/
theorem countVal_le_length (l : List String) (v : String) :
    countVal l v ≤ l.length :=
  List.length_filter_le _ l

/-- The normalized Yes-percentage of any string column lies in `[0, 100]`. -/
theorem yesPct_bounds (vals : List String) : 0 ≤ yesPct vals ∧ yesPct vals ≤ 100 := by
  unfold yesPct
  by_cases h : countVal vals "Yes" = 0
  · simp [h]
  · rw [if_neg h]
    have hlen : 1 ≤ countVal vals "Yes" := Nat.one_le_iff_ne_zero.mpr h
    have hle : countVal vals "Yes" ≤ vals.length := countVal_le_length vals "Yes"
    have hpos : (0 : ℚ) < (vals.length : ℚ) := by
      exact_mod_cast Nat.lt_of_lt_of_le hlen hle
    have hfrac0 : (0 : ℚ) ≤ (countVal vals "Yes" : ℚ) / (vals.length : ℚ) :=
      div_nonneg (by positivity) (le_of_lt hpos)
    have hfrac1 : (countVal vals "Yes" : ℚ) / (vals.length : ℚ) ≤ 1 :=
      (div_le_one hpos).mpr (by exact_mod_cast hle)
    constructor
    · positivity
    · calc (countVal vals "Yes" : ℚ) / (vals.length : ℚ) * 100 ≤ 1 * 100 := by
            exact mul_le_mul_of_nonneg_right hfrac1 (by norm_num)
        _ = 100 := by norm_num

/-- The `value_counts` percentage always agrees with the plain
count-over-total formula (with rational division, where a zero numerator
or denominator both give 0). -/
theorem yesPct_formula (vals : List String) :
    yesPct vals = (countVal vals "Yes" : ℚ) / (vals.length : ℚ) * 100 := by
  unfold yesPct
  by_cases h : countVal vals "Yes" = 0
  · simp [h]
  · rw [if_neg h]

/-- Rebuilding a string from its characters is the identity. -/
theorem string_mk_data (s : String) : String.mk s.data = s := rfl

/-- Scanner steps on the individual characters the writer can emit. -/
theorem csvStep_U_comma (f : List Char) (row : List String) (acc : List (List String)) :
    csvStep ⟨.U, f, row, acc⟩ ',' = ⟨.U, [], row ++ [String.mk f], acc⟩ := rfl

theorem csvStep_U_nl (f : List Char) (row : List String) (acc : List (List String)) :
    csvStep ⟨.U, f, row, acc⟩ '\n' = ⟨.U, [], [], acc ++ [row ++ [String.mk f]]⟩ := rfl

theorem csvStep_U_quoteFresh (row : List String) (acc : List (List String)) :
    csvStep ⟨.U, [], row, acc⟩ '"' = ⟨.Q, [], row, acc⟩ := rfl

theorem csvStep_U_plain (c : Char) (h1 : ¬ c = ',') (h2 : ¬ c = '\n') (h3 : ¬ c = '"')
    (f : List Char) (row : List String) (acc : List (List String)) :
    csvStep ⟨.U, f, row, acc⟩ c = ⟨.U, f ++ [c], row, acc⟩ := by
  simp [csvStep, h1, h2, h3]

theorem csvStep_Q_quote (f : List Char) (row : List String) (acc : List (List String)) :
    csvStep ⟨.Q, f, row, acc⟩ '"' = ⟨.E, f, row, acc⟩ := rfl

theorem csvStep_Q_plain (c : Char) (h : ¬ c = '"') (f : List Char) (row : List String)
    (acc : List (List String)) :
    csvStep ⟨.Q, f, row, acc⟩ c = ⟨.Q, f ++ [c], row, acc⟩ := by
  simp [csvStep, h]

theorem csvStep_E_quote (f : List Char) (row : List String) (acc : List (List String)) :
    csvStep ⟨.E, f, row, acc⟩ '"' = ⟨.Q, f ++ ['"'], row, acc⟩ := rfl

theorem csvStep_E_comma (f : List Char) (row : List String) (acc : List (List String)) :
    csvStep ⟨.E, f, row, acc⟩ ',' = ⟨.U, [], row ++ [String.mk f], acc⟩ := rfl

theorem csvStep_E_nl (f : List Char) (row : List String) (acc : List (List String)) :
    csvStep ⟨.E, f, row, acc⟩ '\n' = ⟨.U, [], [], acc ++ [row ++ [String.mk f]]⟩ := rfl

/-- Scanning characters free of delimiters, quotes and newlines just
appends them to the current field. -/
theorem foldl_plain (cs : List Char)
    (hcs : ∀ c ∈ cs, ¬ c = ',' ∧ ¬ c = '"' ∧ ¬ c = '\n') :
    ∀ f row acc, cs.foldl csvStep ⟨.U, f, row, acc⟩ = ⟨.U, f ++ cs, row, acc⟩ := by
  induction cs with
  | nil => intro f row acc; simp
  | cons c cs ih =>
    intro f row acc
    have hc := hcs c (List.mem_cons_self c cs)
    rw [List.foldl_cons, csvStep_U_plain c hc.1 hc.2.2 hc.2.1 f row acc,
        ih (fun x hx => hcs x (List.mem_cons_of_mem c hx)) (f ++ [c]) row acc]
    simp

/-- Scanning the quote-doubled copy of `cs` inside a quoted field appends
exactly `cs` to the current field and stays inside the quotes. -/
theorem foldl_escChars (cs : List Char) :
    ∀ f row acc, (escChars cs).foldl csvStep ⟨.Q, f, row, acc⟩ = ⟨.Q, f ++ cs, row, acc⟩ := by
  induction cs with
  | nil => intro f row acc; simp [escChars]
  | cons c cs ih =>
    intro f row acc
    by_cases h : c = '"'
    · subst h
      have he : escChars ('"' :: cs) = '"' :: '"' :: escChars cs := by
        simp [escChars]
      rw [he, List.foldl_cons, List.foldl_cons, csvStep_Q_quote, csvStep_E_quote, ih]
      simp
    · have he : escChars (c :: cs) = c :: escChars cs := by
        simp [escChars, h]
      rw [he, List.foldl_cons, csvStep_Q_plain c h, ih]
      simp

/-- Scanning one written field from the start of a field recovers exactly
its characters; the scanner ends inside mode `U` or just after a closing
quote. -/
theorem foldl_escapeField (s : String) (row : List String) (acc : List (List String)) :
    (escapeField s).foldl csvStep ⟨.U, [], row, acc⟩ =
      if needsQuote s then (⟨.E, s.data, row, acc⟩ : CState)
      else ⟨.U, s.data, row, acc⟩ := by
  by_cases h : needsQuote s = true
  · rw [if_pos h]
    unfold escapeField
    rw [if_pos h, List.foldl_cons, csvStep_U_quoteFresh, List.foldl_append,
        foldl_escChars s.data [] row acc, List.foldl_cons, csvStep_Q_quote]
    simp
  · have hb : needsQuote s = false := by
      cases hq : needsQuote s
      · rfl
      · exact absurd hq h
    rw [if_neg h]
    unfold escapeField
    rw [if_neg h]
    have h' : ∀ c ∈ s.data, ¬ c = ',' ∧ ¬ c = '"' ∧ ¬ c = '\n' := by
      intro c hc
      have hx : (c == ',' || c == '"' || c == '\n') = false := by
        cases hb2 : (c == ',' || c == '"' || c == '\n')
        · rfl
        · have hq : needsQuote s = true := by
            unfold needsQuote
            exact List.any_eq_true.mpr ⟨c, hc, hb2⟩
          exact absurd hq h
      simp only [Bool.or_eq_false_iff, beq_eq_false_iff_ne, ne_eq] at hx
      exact ⟨hx.1.1, hx.1.2, hx.2⟩
    rw [foldl_plain s.data h' [] row acc]
    simp

/-- Scanning one written row followed by its newline finishes exactly
that row (appended to the fields already pending) and leaves a fresh
state. -/
theorem foldl_writeRow (fs : List String) (hfs : fs ≠ []) :
    ∀ row acc, (writeRow fs ++ ['\n']).foldl csvStep ⟨.U, [], row, acc⟩ =
      ⟨.U, [], [], acc ++ [row ++ fs]⟩ := by
  induction fs with
  | nil => cases hfs rfl
  | cons f fs ih =>
    intro row acc
    cases fs with
    | nil =>
      have hw : writeRow [f] = escapeField f := rfl
      rw [hw, List.foldl_append, foldl_escapeField]
      by_cases h : needsQuote f
      · rw [if_pos h, List.foldl_cons, csvStep_E_nl, string_mk_data]
        simp
      · rw [if_neg h, List.foldl_cons, csvStep_U_nl, string_mk_data]
        simp
    | cons g gs =>
      have hw : writeRow (f :: g :: gs) = escapeField f ++ ',' :: writeRow (g :: gs) := rfl
      have harr : (writeRow (f :: g :: gs) ++ ['\n']) =
          escapeField f ++ (',' :: (writeRow (g :: gs) ++ ['\n'])) := by
        rw [hw]; simp
      rw [harr, List.foldl_append, foldl_escapeField]
      by_cases h : needsQuote f
      · rw [if_pos h, List.foldl_cons, csvStep_E_comma, string_mk_data,
            ih (by simp) (row ++ [f]) acc]
        simp
      · rw [if_neg h, List.foldl_cons, csvStep_U_comma, string_mk_data,
            ih (by simp) (row ++ [f]) acc]
        simp

/-- Scanning a whole written table appends exactly its rows to the
accumulator. -/
theorem foldl_csv_chars (rows : List (List String)) (hrows : ∀ r ∈ rows, r ≠ []) :
    ∀ acc, (csv_chars rows).foldl csvStep ⟨.U, [], [], acc⟩ = ⟨.U, [], [], acc ++ rows⟩ := by
  induction rows with
  | nil => intro acc; simp [csv_chars]
  | cons r rs ih =>
    intro acc
    have hsplit : csv_chars (r :: rs) = (writeRow r ++ ['\n']) ++ csv_chars rs := by
      simp [csv_chars]
    rw [hsplit, List.foldl_append,
        foldl_writeRow r (hrows r (List.mem_cons_self r rs)) [] acc,
        ih (fun x hx => hrows x (List.mem_cons_of_mem r hx)) (acc ++ [[] ++ r])]
    simp

/-- Re-parsing a written table of nonempty rows gives back exactly those
rows. -/
theorem parseCSV_csv_chars (rows : List (List String)) (hrows : ∀ r ∈ rows, r ≠ []) :
    parseCSV ⟨csv_chars rows⟩ = rows := by
  unfold parseCSV
  rw [show (String.mk (csv_chars rows)).data = csv_chars rows from rfl,
      foldl_csv_chars rows hrows []]
  simp


/-- Each conditional step of the pipeline never adds records. -/
theorem stepTitle_sublist (fs : FilterSpec) (l : List JobRecord) :
    List.Sublist (stepTitle fs l) l := by
  unfold stepTitle; exact sublist_skip_filter _ _ _

theorem stepCity_sublist (fs : FilterSpec) (l : List JobRecord) :
    List.Sublist (stepCity fs l) l := by
  unfold stepCity; exact sublist_skip_filter _ _ _

theorem stepCompany_sublist (fs : FilterSpec) (l : List JobRecord) :
    List.Sublist (stepCompany fs l) l := by
  unfold stepCompany; exact sublist_skip_filter _ _ _

theorem stepHired_sublist (fs : FilterSpec) (l : List JobRecord) :
    List.Sublist (stepHired fs l) l := by
  unfold stepHired; exact sublist_skip_filter _ _ _

theorem stepEasy_sublist (fs : FilterSpec) (l : List JobRecord) :
    List.Sublist (stepEasy fs l) l := by
  unfold stepEasy; exact sublist_skip_filter _ _ _

/-- C1: for every dataset and every filter selection, the filtered result
is a sublist (subset by record identity, hence no longer than the input)
of the input dataframe, and a record belongs to the result exactly when
it belongs to the input and satisfies every active filter predicate:
the dimensions combine conjunctively, and a dimension whose selection is
empty or All is skipped (within a multi-select, membership in the
selected set is the disjunctive check). -/
theorem filtered_conjunctive (df : List JobRecord) (fs : FilterSpec) :
    List.Sublist (filtered_df df fs) df ∧
    (filtered_df df fs).length ≤ df.length ∧
    (∀ r, r ∈ filtered_df df fs ↔ r ∈ df ∧ activePass fs r) := by
  have hsub : List.Sublist (filtered_df df fs) df := by
    unfold filtered_df
    exact (stepEasy_sublist _ _).trans ((stepHired_sublist _ _).trans
      ((stepCompany_sublist _ _).trans ((stepCity_sublist _ _).trans
        ((stepTitle_sublist _ _).trans (dateStep_sublist _ _)))))
  refine ⟨hsub, hsub.length_le, ?_⟩
  intro r
  unfold filtered_df stepEasy stepHired stepCompany stepCity stepTitle
  rw [mem_skip_filter, mem_skip_filter, mem_skip_filter, mem_skip_filter,
      mem_skip_filter, mem_dateStep]
  unfold activePass
  simp only [decide_eq_true_eq, ne_eq]
  tauto

/-- C2: with nothing selected in the multi-selects, both select boxes on
All, and the date picker holding the dataset's full span, the pipeline
returns the full dataframe unchanged. -/
theorem filtered_allSpec_id (df : List JobRecord) :
    filtered_df df (allSpec df) = df := by
  have hd : dateStep (allSpec df).dateRange df = df := by
    show List.filter (fun r => decide (dateOf (dateMin df) ≤ dateOf r.date) &&
        decide (dateOf r.date ≤ dateOf (dateMax df))) df = df
    rw [List.filter_eq_self]
    intro r hr
    simp only [Bool.and_eq_true, decide_eq_true_eq]
    exact ⟨dateOf_mono (dateMin_le hr), dateOf_mono (le_dateMax hr)⟩
  unfold filtered_df
  rw [hd]
  simp [stepTitle, stepCity, stepCompany, stepHired, stepEasy, allSpec]

/-- C10: when the date picker has returned fewer (or more) than two
endpoints, the date dimension is skipped entirely: every record passes it
regardless of its date, and the whole pipeline behaves as if no date
range were selected. -/
theorem dateRange_incomplete_skipped (df : List JobRecord) (fs : FilterSpec)
    (h : fs.dateRange.length ≠ 2) :
    dateStep fs.dateRange df = df ∧
    filtered_df df fs = filtered_df df { fs with dateRange := [] } := by
  have hds : dateStep fs.dateRange df = df := by
    cases hdr : fs.dateRange with
    | nil => rfl
    | cons a tl =>
      cases tl with
      | nil => rfl
      | cons b tl2 =>
        cases tl2 with
        | nil => rw [hdr] at h; simp at h
        | cons c tl3 => rfl
  refine ⟨hds, ?_⟩
  unfold filtered_df
  rw [hds]
  exact rfl

/-- C3: the Hired-Rate KPI equals count of Yes over total times 100, the
Easy-Apply rate is computed the same way, both always lie in the interval
0 to 100, and on an empty filtered subset both are 0 (a missing
`value_counts` key falls back to the default 0, never NaN). -/
theorem rates_formula_and_range (l : List JobRecord) :
    hired_pct l = (countVal (l.map JobRecord.hired) "Yes" : ℚ) / (l.length : ℚ) * 100 ∧
    easy_pct l = (countVal (l.map JobRecord.easyApply) "Yes" : ℚ) / (l.length : ℚ) * 100 ∧
    0 ≤ hired_pct l ∧ hired_pct l ≤ 100 ∧
    0 ≤ easy_pct l ∧ easy_pct l ≤ 100 ∧
    hired_pct [] = 0 ∧ easy_pct [] = 0 := by
  refine ⟨?_, ?_, (yesPct_bounds _).1, (yesPct_bounds _).2,
    (yesPct_bounds _).1, (yesPct_bounds _).2, ?_, ?_⟩
  · unfold hired_pct
    rw [yesPct_formula, List.length_map]
  · unfold easy_pct
    rw [yesPct_formula, List.length_map]
  · simp [hired_pct, yesPct, countVal]
  · simp [easy_pct, yesPct, countVal]

/-- C7: when the filtered subset is nonempty, the Jobs/Day KPI is the
record count divided by `max 1 days-spanned`; the divisor is at least 1,
hence nonzero as a rational; and for an empty filtered subset the
dashboard skips the KPI block (no division is attempted). -/
theorem jobs_per_day_formula (l : List JobRecord) (h : l ≠ []) :
    kpiJobsPerDay l = some ((l.length : ℚ) / ((max 1 (daysBetween l) : Int) : ℚ)) ∧
    1 ≤ max 1 (daysBetween l) ∧
    ((max 1 (daysBetween l) : Int) : ℚ) ≠ 0 ∧
    kpiJobsPerDay [] = none := by
  have hlen : l.length ≠ 0 := fun hc => h (List.length_eq_zero.mp hc)
  refine ⟨?_, le_max_left _ _, ?_, rfl⟩
  · unfold kpiJobsPerDay
    rw [if_neg hlen]
    rfl
  · have h0 : (0 : Int) < max 1 (daysBetween l) :=
      lt_of_lt_of_le Int.one_pos (le_max_left _ _)
    exact_mod_cast ne_of_gt h0

/-- A raw row whose job title cell holds the empty string (present, but
empty) and whose other critical fields are fine. -/
def rawEmptyTitle : RawRow :=
  ⟨some 0, some "", some "New York, NY", some "No", some "No", some "Acme"⟩

/-- C4, counterexample: a record whose job-title cell is the empty string
is NOT dropped by `dropna(subset := [Date, Job Title])` (only a missing
cell is), so the loaded dataset contains a record with an empty job
title, contradicting the claimed non-empty-title invariant. -/
theorem load_keeps_empty_title :
    (load_data true true true true [rawEmptyTitle]).map JobRecord.jobTitle = [""] := by
  decide

/-- C4, amended: after the Loader runs, every record stems from a raw row
with a parseable date and (when the title column exists) a present,
non-null job title; any row with an unparseable date or a missing (null)
job title is dropped.  An empty-string title, however, is retained. -/
theorem load_drops_missing (hT hL hH hE : Bool) (rows : List RawRow) :
    (∀ rec ∈ load_data hT hL hH hE rows, ∃ raw ∈ rows,
        raw.date.isSome ∧ (hT = true → raw.jobTitle.isSome) ∧
        processRow hT hL hH hE raw = some rec) ∧
    (∀ raw : RawRow, raw.date = none ∨ (hT = true ∧ raw.jobTitle = none) →
        processRow hT hL hH hE raw = none) := by
  constructor
  · intro rec hrec
    rcases List.mem_filterMap.mp hrec with ⟨raw, hmem, hp⟩
    refine ⟨raw, hmem, ?_, ?_, hp⟩
    · cases hd : raw.date with
      | none => simp [processRow, hd] at hp
      | some d => rfl
    · intro hTt
      subst hTt
      cases ht : raw.jobTitle with
      | none => cases hd : raw.date <;> simp [processRow, hd, ht] at hp
      | some t => rfl
  · intro raw hcond
    rcases hcond with hd | ⟨hTt, ht⟩
    · simp [processRow, hd]
    · subst hTt
      cases hd : raw.date <;> simp [processRow, hd, ht]

/-- C4, witness for the amended theorem: a row with an unparseable date
is dropped. -/
theorem load_drops_missing_witness :
    processRow true true true true ⟨none, some "X", none, none, none, none⟩ = none :=
  (load_drops_missing true true true true []).2 _ (Or.inl rfl)

/-- A raw row whose Hired cell holds a third value and whose Easy-Apply
cell is missing. -/
def rawMaybe : RawRow :=
  ⟨some 0, some "T", some "NYC", some "Maybe", none, none⟩

/-- The record `load_data` produces from `rawMaybe`. -/
def recMaybe : JobRecord := ⟨0, "T", some "NYC", none, "Maybe", "nan"⟩

/-- C6, counterexample: `astype(str)` does not coerce Hired / Easy Apply
onto the two-valued enumeration: a third value (Maybe) passes through
verbatim and a missing cell becomes the string nan rather than No, so
the loaded fields are not confined to Yes / No. -/
theorem load_hired_not_binary :
    (load_data true true true true [rawMaybe]).map JobRecord.hired = ["Maybe"] ∧
    (load_data true true true true [rawMaybe]).map JobRecord.easyApply = ["nan"] ∧
    ¬ ("Maybe" = "Yes" ∨ "Maybe" = "No") := by
  decide

/-- C6, amended: after loading, each record's hired / easy-apply field is
the plain string conversion of the raw cell (a missing cell becomes the
string nan, any other value is kept verbatim); the fields are the
constant No only when the whole column is absent; and the job title is
the whitespace-trimmed raw title (or the constant when the title column
is absent). -/
theorem load_field_normalization (hT hL hH hE : Bool) (rows : List RawRow) :
    ∀ rec ∈ load_data hT hL hH hE rows, ∃ raw ∈ rows,
      rec.hired = (if hH then astypeStr raw.hired else "No") ∧
      rec.easyApply = (if hE then astypeStr raw.easyApply else "No") ∧
      (if hT then raw.jobTitle.map strip else some "Data Analyst") = some rec.jobTitle := by
  intro rec hrec
  rcases List.mem_filterMap.mp hrec with ⟨raw, hmem, hp⟩
  refine ⟨raw, hmem, ?_⟩
  cases hd : raw.date with
  | none => simp [processRow, hd] at hp
  | some d =>
    cases ht : (if hT then raw.jobTitle.map strip else some "Data Analyst") with
    | none =>
      unfold processRow at hp
      rw [hd, ht] at hp
      simp at hp
    | some t =>
      unfold processRow at hp
      rw [hd, ht] at hp
      simp only [Option.some.injEq] at hp
      subst hp
      exact ⟨rfl, rfl, rfl⟩

/-- C6, witness for the amended theorem, at the concrete loaded record of
`rawMaybe`. -/
theorem load_field_normalization_witness :
    ∃ raw ∈ [rawMaybe],
      recMaybe.hired = (if true then astypeStr raw.hired else "No") ∧
      recMaybe.easyApply = (if true then astypeStr raw.easyApply else "No") ∧
      (if true then raw.jobTitle.map strip else some "Data Analyst") =
        some recMaybe.jobTitle :=
  load_field_normalization true true true true [rawMaybe] recMaybe (by decide)

/-- A record posted on a Monday (day number 0). -/
def recMon : JobRecord := ⟨0, "T", none, none, "No", "No"⟩

/-- A small concrete dataframe used to instantiate theorems. -/
def dfW : List JobRecord :=
  [ ⟨0, "Data Analyst", some "New York", some "Google", "Yes", "No"⟩,
    ⟨30, "Business Analyst", some "Chicago", none, "No", "Yes"⟩ ]

/-- C5, counterexample: on a subset holding a single Monday record, the
reindexed day-of-week distribution carries `none` (pandas `NaN`) at
Tuesday, not a zero count: `value_counts().reindex([...])` has no
`fill_value`, so an absent weekday is missing rather than zero. -/
theorem daily_pattern_absent_day_missing :
    (daily_pattern [recMon]).getD 1 ("", some 0) = ("Tuesday", none) ∧
    countDay [recMon] "Tuesday" = 0 := by
  decide

/-- C5, amended: for every nonempty subset the day-of-week distribution
has exactly 7 entries in the fixed order Monday..Sunday; a weekday with
no records carries a missing value (`NaN`), and a weekday with records
carries its count. -/
theorem daily_pattern_seven_fixed (l : List JobRecord) (h : l ≠ []) :
    (daily_pattern l).length = 7 ∧
    (daily_pattern l).map Prod.fst = dayNames ∧
    ∀ p ∈ daily_pattern l,
      (countDay l p.1 = 0 → p.2 = none) ∧
      (countDay l p.1 ≠ 0 → p.2 = some (countDay l p.1)) := by
  refine ⟨by simp [daily_pattern, dayNames], ?_, ?_⟩
  · rw [daily_pattern, List.map_map]
    rfl
  · intro p hp
    rcases List.mem_map.mp hp with ⟨w, hw, rfl⟩
    constructor
    · intro h0; simp [h0]
    · intro h0; simp [h0]

/-- C5, witness for the amended theorem at a concrete one-record subset. -/
theorem daily_pattern_seven_fixed_witness :
    (daily_pattern [recMon]).length = 7 ∧
    (daily_pattern [recMon]).map Prod.fst = dayNames := by
  have h := daily_pattern_seven_fixed [recMon] (by decide)
  exact ⟨h.1, h.2.1⟩

/-- C8: the Loader is a total function of its environment; whenever no
candidate file exists, or the first existing candidate fails to read, it
surfaces a message and returns the deterministic sample dataset instead
of raising. -/
theorem loader_falls_back (read : String → ReadResult) (hT hL hH hE : Bool) :
    ((∀ f ∈ possible_files, read f = .notFound) →
      load_data_top read hT hL hH hE =
        ⟨some "Data file not found. Using sample data for demonstration.",
         create_sample_data⟩) ∧
    (∀ m, firstRead read possible_files = .failure m →
      load_data_top read hT hL hH hE =
        ⟨some ("Error loading data: " ++ m), create_sample_data⟩) := by
  constructor
  · intro hall
    have hfr : ∀ fs : List String, (∀ f ∈ fs, read f = .notFound) →
        firstRead read fs = .notFound := by
      intro fs
      induction fs with
      | nil => intro _; rfl
      | cons f fs ih =>
        intro hall2
        have h1 : read f = .notFound := hall2 f (List.mem_cons_self f fs)
        have hstep : firstRead read (f :: fs) = firstRead read fs := by
          simp [firstRead, h1]
        rw [hstep]
        exact ih (fun x hx => hall2 x (List.mem_cons_of_mem f hx))
    unfold load_data_top
    rw [hfr possible_files hall]
  · intro m hm
    unfold load_data_top
    rw [hm]

/-- C8, witness: a file system with no candidate file, and one whose
reads raise, both fall back to the sample dataset with a message. -/
theorem loader_falls_back_witness :
    load_data_top (fun _ => ReadResult.notFound) true true true true =
      ⟨some "Data file not found. Using sample data for demonstration.",
       create_sample_data⟩ ∧
    load_data_top (fun _ => ReadResult.failure "bad file") true true true true =
      ⟨some ("Error loading data: " ++ "bad file"), create_sample_data⟩ := by
  constructor
  · exact (loader_falls_back (fun _ => .notFound) true true true true).1 (fun f _ => rfl)
  · exact (loader_falls_back (fun _ => .failure "bad file") true true true true).2
      "bad file" rfl

/-- C9: re-parsing the CSV produced from any dataframe yields the header
row followed by exactly the written records: the record count round-trips
(one more parsed row than records, the header), and the parsed job-title
column is exactly the dataframe's job-title column, so the set of job
titles round-trips as well. -/
theorem csv_roundtrip (l : List JobRecord) :
    parseCSV (csv_data l) = headerFields :: l.map recFields ∧
    (parseCSV (csv_data l)).length = l.length + 1 ∧
    ((parseCSV (csv_data l)).drop 1).map (fun row => row.getD 1 "") =
      l.map JobRecord.jobTitle := by
  have hrows : ∀ r ∈ headerFields :: l.map recFields, r ≠ [] := by
    intro r hr
    rcases List.mem_cons.mp hr with rfl | hr
    · simp [headerFields]
    · rcases List.mem_map.mp hr with ⟨x, _, rfl⟩
      simp [recFields]
  have hmain : parseCSV (csv_data l) = headerFields :: l.map recFields :=
    parseCSV_csv_chars _ hrows
  refine ⟨hmain, ?_, ?_⟩
  · rw [hmain]
    simp
  · rw [hmain]
    have hdrop : (headerFields :: l.map recFields).drop 1 = l.map recFields := rfl
    rw [hdrop, List.map_map]
    rfl

/-- A filter selection whose date picker has produced only one endpoint
so far. -/
def fsIncomplete : FilterSpec := ⟨[5], ["Data Analyst"], [], [], "All", "All"⟩

/-- C10, witness: with a one-endpoint range the date dimension is skipped
on a concrete dataframe. -/
theorem dateRange_incomplete_skipped_witness :
    dateStep fsIncomplete.dateRange dfW = dfW ∧
    filtered_df dfW fsIncomplete =
      filtered_df dfW { fsIncomplete with dateRange := [] } :=
  dateRange_incomplete_skipped dfW fsIncomplete (by decide)

/-- C7, witness at a concrete nonempty dataframe. -/
theorem jobs_per_day_formula_witness :
    kpiJobsPerDay dfW = some ((dfW.length : ℚ) / ((max 1 (daysBetween dfW) : Int) : ℚ)) ∧
    1 ≤ max 1 (daysBetween dfW) ∧
    ((max 1 (daysBetween dfW) : Int) : ℚ) ≠ 0 ∧
    kpiJobsPerDay [] = none :=
  jobs_per_day_formula dfW (by decide)
